import Mathlib

/-!
Shallow embedding of `src/c_c++/projects/student_management.cpp`.

The `Student` class and the roster operations of `StudentManager` are
translated to Lean. Machine integers (`int`) become `Int`; `size_t`
positions become `Nat` with explicit arithmetic modulo `2^64` where the
C++ code wraps (`std::string::npos` games in `fromFileString`); `double`
becomes `ℚ` (comparisons and decimal printing/parsing are exact on the
values the program manipulates; printf's round-half-even at exact
midpoints is idealised as round-half-up, which agrees on every exactly
representable value); functions that can throw (`stoi`, `stod`,
`substr`) return `Option`, and `none` models a thrown C++ exception.
Strings are modelled through their character lists (`String.data`);
positions count characters, which coincides with the C++ byte positions
on ASCII data and is used consistently on both the serialising and the
parsing side.
-/

namespace StudentMgmt

/-- The value `std::string::npos` as a `Nat` (`size_t(-1)`). -/
def npos : Nat := 2 ^ 64 - 1

/-- Addition on `size_t` (wraps modulo `2^64`). -/
def add64 (a b : Nat) : Nat := (a + b) % 2 ^ 64

/-- Subtraction on `size_t` (wraps modulo `2^64`). -/
def sub64 (a b : Nat) : Nat := (a + 2 ^ 64 - b % 2 ^ 64) % 2 ^ 64

/-- C `isspace` characters, as skipped by `strtol`/`strtod` inside
`std::stoi`/`std::stod`. -/
def isSpaceC (c : Char) : Bool :=
  c = ' ' || c = '\t' || c = '\n' || c = '\x0b' || c = '\x0c' || c = '\r'

/-- Numeric value of a decimal digit character. -/
def digitVal (c : Char) : Nat := c.toNat - 48

/-- Value of a string of decimal digits, most significant first. -/
def digitsToNat (l : List Char) : Nat :=
  l.foldl (fun a c => 10 * a + digitVal c) 0

/-- Decimal digits of `n`, most significant first; fuel-indexed so that it
is structurally recursive (the fuel `n + 1` always suffices). -/
def natCharsAux : Nat → Nat → List Char
  | 0, _ => []
  | fuel + 1, n =>
      if n < 10 then [Nat.digitChar n]
      else natCharsAux fuel (n / 10) ++ [Nat.digitChar (n % 10)]

/-- Decimal representation of a natural number, as `std::to_string` prints
its digits. -/
def natChars (n : Nat) : List Char := natCharsAux (n + 1) n

/-- Printing via `std::to_string(int)`: optional minus sign followed by decimal digits. -/
def intChars (i : Int) : List Char :=
  if i < 0 then '-' :: natChars i.natAbs else natChars i.natAbs

/-- Leading sign handling of `strtol`/`strtod`. -/
def splitSign (l : List Char) : Int × List Char :=
  match l with
  | [] => (1, [])
  | c :: r => if c = '-' then (-1, r) else if c = '+' then (1, r) else (1, c :: r)

/-- Parsing via `std::stoi`: skip spaces, optional sign, then decimal digits (trailing
characters ignored); `none` models the `std::invalid_argument` thrown when
no digits are found and the `std::out_of_range` thrown when the value does
not fit in `int`. -/
def stoi (l : List Char) : Option Int :=
  let l1 := l.dropWhile isSpaceC
  let s := splitSign l1
  let ds := (s.2).takeWhile Char.isDigit
  if ds.isEmpty then none
  else
    let v : Int := s.1 * (digitsToNat ds : Int)
    if v < -(2 ^ 31) ∨ (2 ^ 31 - 1 : Int) < v then none else some v

/-- Parsing via `std::stod` on the decimal forms the program manipulates: skip spaces,
optional sign, integer digits, optional point and fraction digits; `none`
models the `std::invalid_argument` thrown when no digits are found.
(Exponent, hexadecimal and inf/nan forms never arise from this program's
serializer and are not modelled.) -/
def stod (l : List Char) : Option ℚ :=
  let l1 := l.dropWhile isSpaceC
  let s := splitSign l1
  let ip := (s.2).takeWhile Char.isDigit
  let rest := (s.2).dropWhile Char.isDigit
  let fp := match rest with
            | '.' :: r => r.takeWhile Char.isDigit
            | _ => []
  if ip.isEmpty ∧ fp.isEmpty then none
  else
    some (mkRat (s.1 * (digitsToNat ip * 10 ^ fp.length + digitsToNat fp))
                (10 ^ fp.length))

/-- Index of the first occurrence of `c` in `l`, if any. -/
def findIdxC (c : Char) : List Char → Option Nat
  | [] => none
  | x :: xs => if x = c then some 0 else (findIdxC c xs).map (· + 1)

/-- Search via `std::string::find(char, start)`: position of the first occurrence of
`c` at or after `start`, or `npos`. -/
def findChar (l : List Char) (c : Char) (start : Nat) : Nat :=
  match findIdxC c (l.drop start) with
  | some i => start + i
  | none => npos

/-- Extraction via `std::string::substr(pos, count)`: `none` models the
`std::out_of_range` thrown when `pos` exceeds the length; `count` is
clamped to the remaining length. -/
def substr (l : List Char) (pos count : Nat) : Option (List Char) :=
  if pos ≤ l.length then some ((l.drop pos).take count) else none

/-- The course-splitting loop of `Student::fromFileString`: segments are
cut at each ';' (pushed even when empty), and the remainder after the last
';' is pushed only when nonempty; `cur` is the segment accumulated so
far. -/
def splitSemiAux (cur : List Char) : List Char → List (List Char)
  | [] => if cur = [] then [] else [cur]
  | c :: rest =>
      if c = ';' then cur :: splitSemiAux [] rest
      else splitSemiAux (cur ++ [c]) rest

/-- Course-list parsing of `Student::fromFileString` on the text after the
fourth comma. -/
def parseCourses (l : List Char) : List (List Char) := splitSemiAux [] l

/-- The course-joining loop of `Student::toFileString`: `';'` is appended
after every course except the last. -/
def joinSemi : List (List Char) → List Char
  | [] => []
  | [c] => c
  | c :: rest => c ++ ';' :: joinSemi rest

/-- Rounding to micro-units used by `%f` printing with 6 decimals:
`⌊q * 10^6 + 1/2⌋` computed on the numerator and denominator of `q` with
integer floor division. Exact on every value whose micro-part is
integral. -/
def micro (q : ℚ) : Int :=
  (2 * (1000000 * q.num) + q.den).fdiv (2 * q.den)

/-- Digits of a micro-unit count `n`, printed as `%f` does with 6 decimal
places: integer part, '.', then the fractional part zero-padded to 6
digits. -/
def fixed6Nat (n : Nat) : List Char :=
  natChars (n / 1000000) ++
    '.' :: (List.replicate (6 - (natChars (n % 1000000)).length) '0' ++
            natChars (n % 1000000))

/-- Printing via `std::to_string(double)`: `%f` with 6 decimal places, sign first. -/
def fixed6Chars (q : ℚ) : List Char :=
  if q < 0 then '-' :: fixed6Nat (micro (-q)).toNat
  else fixed6Nat (micro q).toNat

/-- The `Student` class: `id`, `name`, `age`, `gpa`, `courses`. -/
structure Student where
  id : Int
  name : String
  age : Int
  gpa : ℚ
  courses : List String
  deriving DecidableEq, Repr

namespace Student

/-- Serialization `Student::toFileString`: id, name, age, gpa joined by ',' followed by
one more ',' and the ';'-joined course list. -/
def toFileString (s : Student) : String :=
  ⟨intChars s.id ++ ',' :: s.name.data ++ ',' :: intChars s.age ++
     ',' :: fixed6Chars s.gpa ++ ',' :: joinSemi (s.courses.map String.data)⟩

/-- Deserialization `Student::fromFileString`: comma positions are located with
`find` (with `size_t` wrap-around on `pos + 1`), the four scalar fields
are cut out with `substr` and parsed with `stoi`/`stod`, and the text
after the fourth comma, when present and nonempty, is split at ';'.
`none` models an uncaught C++ exception. -/
def fromFileString (line : String) : Option Student :=
  let cs := line.data
  let n := cs.length
  let pos1 := findChar cs ',' 0
  let pos2 := findChar cs ',' (add64 pos1 1)
  let pos3 := findChar cs ',' (add64 pos2 1)
  let pos4 := findChar cs ',' (add64 pos3 1)
  do
    let idCs ← substr cs 0 pos1
    let idv ← stoi idCs
    let nameCs ← substr cs (add64 pos1 1) (sub64 (sub64 pos2 pos1) 1)
    let ageCs ← substr cs (add64 pos2 1) (sub64 (sub64 pos3 pos2) 1)
    let agev ← stoi ageCs
    let gpaCs ← substr cs (add64 pos3 1) (sub64 (sub64 pos4 pos3) 1)
    let gpav ← stod gpaCs
    let courses :=
      if pos4 ≠ npos ∧ add64 pos4 1 < n then
        (parseCourses (cs.drop (add64 pos4 1))).map (fun c => String.mk c)
      else []
    pure { id := idv, name := ⟨nameCs⟩, age := agev, gpa := gpav,
           courses := courses }

/-- Setter `Student::setGpa`: the new value is stored only when
`0.0 <= newGpa && newGpa <= 4.0`; otherwise nothing happens. -/
def setGpa (s : Student) (newGpa : ℚ) : Student :=
  if 0 ≤ newGpa ∧ newGpa ≤ 4 then { s with gpa := newGpa } else s

/-- Course addition `Student::addCourse`: `push_back` on the course vector. -/
def addCourse (s : Student) (course : String) : Student :=
  { s with courses := s.courses ++ [course] }

/-- Course removal `Student::removeCourse`: the erase–remove idiom
`courses.erase(remove(begin, end, course), end)`, which deletes every
element equal to `course` and keeps the others in order. -/
def removeCourse (s : Student) (course : String) : Student :=
  { s with courses := s.courses.filter (fun c => c ≠ course) }

/-- Honor predicate `Student::isHonorStudent`: `gpa >= 3.5` (the double literal `3.5` is
exactly `35/10`). -/
def isHonorStudent (s : Student) : Bool := mkRat 35 10 ≤ s.gpa

/-- Grade tier `Student::getGradeLevel`: tier thresholds 3.7, 3.0, 2.0, 1.0 (each
double literal is exact, written as `mkRat`). -/
def getGradeLevel (s : Student) : String :=
  if mkRat 37 10 ≤ s.gpa then "A"
  else if mkRat 30 10 ≤ s.gpa then "B"
  else if mkRat 20 10 ≤ s.gpa then "C"
  else if mkRat 10 10 ≤ s.gpa then "D"
  else "F"

end Student

/-- Lookup `StudentManager::findStudentById`: `find_if` over the roster, first
record whose `id` matches, modelled as `Option` instead of a pointer. -/
def findStudentById (id : Int) (students : List Student) : Option Student :=
  students.find? (fun s => s.id == id)

/-- The roster logic of `StudentManager::addStudent` (the `cin` prompts
are glue): when a record with the same id exists the function returns
early and the roster is unchanged (`false` = the duplicate-id error
message); otherwise the new student is `push_back`ed. -/
def addStudent (students : List Student) (s : Student) :
    List Student × Bool :=
  if (findStudentById s.id students).isSome then (students, false)
  else (students ++ [s], true)

/-- The roster logic of `StudentManager::removeStudent`: `find_if` for the
first record with the given id, erased when found (`true`); otherwise the
"not found" message is printed and the roster is unchanged (`false`). -/
def removeStudent (id : Int) : List Student → List Student × Bool
  | [] => ([], false)
  | s :: rest =>
      if s.id = id then (rest, true)
      else
        let r := removeStudent id rest
        (s :: r.1, r.2)

/-- Substring search `std::string::find(string)` from position 0: smallest index where the
pattern occurs (the empty pattern matches at 0), else `npos`. -/
def strFind (hay pat : List Char) : Nat :=
  match (List.range (hay.length + 1)).find?
      (fun i => decide (i + pat.length ≤ hay.length) &&
                decide ((hay.drop i).take pat.length = pat)) with
  | some i => i
  | none => npos

/-- The search-by-name branch of `StudentManager::searchStudent`: every
student whose name contains the text as a substring
(`getName().find(name) != string::npos`), in roster order. -/
def searchStudentByName (name : String) (students : List Student) :
    List Student :=
  students.filter (fun s => strFind s.name.data name.data != npos)

/-- The line loop of `StudentManager::loadFromFile`: non-empty lines are
deserialized in order; `none` models an exception escaping from
`fromFileString`. -/
def loadLines : List String → Option (List Student)
  | [] => some []
  | line :: rest =>
      if line.isEmpty then loadLines rest
      else do
        let s ← Student.fromFileString line
        let tl ← loadLines rest
        pure (s :: tl)

/-- Loading `StudentManager::loadFromFile`: the file is modelled as
`Option (List String)` (`none` = the file cannot be opened). When the
file opens, the roster is cleared and rebuilt from the non-blank lines;
otherwise nothing happens and the prior roster is kept. -/
def loadFromFile (file : Option (List String)) (students : List Student) :
    Option (List Student) :=
  match file with
  | none => some students
  | some lines => loadLines lines

/-! ### Lemmas about decimal digit printing and parsing -/

theorem digit_isDigit : ∀ d : Nat, d < 10 → (Nat.digitChar d).isDigit = true := by
  decide

theorem digitVal_digitChar : ∀ d : Nat, d < 10 → digitVal (Nat.digitChar d) = d := by
  decide

theorem natCharsAux_all_digits (fuel n : Nat) :
    ∀ c ∈ natCharsAux fuel n, c.isDigit = true := by
  induction fuel generalizing n with
  | zero => intro c hc; simp [natCharsAux] at hc
  | succ fuel ih =>
      intro c hc
      rw [natCharsAux] at hc
      by_cases h : n < 10
      · rw [if_pos h] at hc
        simp at hc
        subst hc
        exact digit_isDigit n h
      · rw [if_neg h] at hc
        rcases List.mem_append.mp hc with h1 | h1
        · exact ih (n / 10) c h1
        · simp at h1
          subst h1
          exact digit_isDigit (n % 10) (Nat.mod_lt n (by omega))

theorem natChars_all_digits (n : Nat) : ∀ c ∈ natChars n, c.isDigit = true :=
  natCharsAux_all_digits (n + 1) n

theorem natCharsAux_ne_nil (fuel n : Nat) (h : 0 < fuel) :
    natCharsAux fuel n ≠ [] := by
  cases fuel with
  | zero => omega
  | succ fuel =>
      rw [natCharsAux]
      by_cases h10 : n < 10
      · simp [if_pos h10]
      · simp [if_neg h10]

theorem natChars_ne_nil (n : Nat) : natChars n ≠ [] :=
  natCharsAux_ne_nil (n + 1) n (by omega)

theorem digitsToNat_append_one (l : List Char) (c : Char) :
    digitsToNat (l ++ [c]) = 10 * digitsToNat l + digitVal c := by
  simp [digitsToNat, List.foldl_append]

theorem digitsToNat_natCharsAux (fuel n : Nat) (h : n < fuel) :
    digitsToNat (natCharsAux fuel n) = n := by
  induction fuel generalizing n with
  | zero => omega
  | succ fuel ih =>
      rw [natCharsAux]
      by_cases h10 : n < 10
      · rw [if_pos h10]
        simp [digitsToNat, digitVal_digitChar n h10]
      · rw [if_neg h10]
        rw [digitsToNat_append_one]
        have hdiv : n / 10 < fuel := by
          have : n / 10 < n := Nat.div_lt_self (by omega) (by omega)
          omega
        rw [ih (n / 10) hdiv, digitVal_digitChar (n % 10) (Nat.mod_lt n (by omega))]
        omega

theorem digitsToNat_natChars (n : Nat) : digitsToNat (natChars n) = n :=
  digitsToNat_natCharsAux (n + 1) n (by omega)

theorem natCharsAux_length (fuel n k : Nat) (hn : n < 10 ^ k) (hk : 0 < k)
    (hf : n < fuel) : (natCharsAux fuel n).length ≤ k := by
  induction fuel generalizing n k with
  | zero => omega
  | succ fuel ih =>
      rw [natCharsAux]
      by_cases h10 : n < 10
      · rw [if_pos h10]; simpa using hk
      · rw [if_neg h10]
        rw [List.length_append]
        cases k with
        | zero => omega
        | succ k =>
            have hk2 : 0 < k := by
              by_contra hk0
              have : k = 0 := by omega
              subst this
              simp [pow_succ] at hn
              omega
            have hnk : n / 10 < 10 ^ k := by
              rw [Nat.div_lt_iff_lt_mul (by omega : (0:Nat) < 10)]
              rw [pow_succ] at hn
              omega
            have hdf : n / 10 < fuel := by
              have : n / 10 < n := Nat.div_lt_self (by omega) (by omega)
              omega
            have := ih (n / 10) k hnk hk2 hdf
            simp
            omega

theorem natChars_length (n k : Nat) (hn : n < 10 ^ k) (hk : 0 < k) :
    (natChars n).length ≤ k :=
  natCharsAux_length (n + 1) n k hn hk (by omega)

/-! ### Character classification -/

theorem isSpaceC_eq_false_of_isDigit {c : Char} (h : c.isDigit = true) :
    isSpaceC c = false := by
  cases hs : isSpaceC c with
  | false => rfl
  | true =>
      exfalso
      simp only [isSpaceC, Bool.or_eq_true, decide_eq_true_eq] at hs
      rcases hs with ((((h1 | h1) | h1) | h1) | h1) | h1 <;>
        (subst h1; exact absurd h (by decide))

theorem ne_of_isDigit {c d : Char} (h : c.isDigit = true)
    (hd : d.isDigit = false) : c ≠ d := by
  intro heq
  rw [heq, hd] at h
  exact absurd h (by decide)

theorem digits_takeWhile {p : Char → Bool} :
    ∀ l : List Char, (∀ c ∈ l, p c = true) → l.takeWhile p = l := by
  intro l h
  induction l with
  | nil => rfl
  | cons c cs ih =>
      rw [List.takeWhile_cons, h c (by simp)]
      simp [ih (fun x hx => h x (by simp [hx]))]

theorem digits_dropWhile {p : Char → Bool} :
    ∀ l : List Char, (∀ c ∈ l, p c = true) → l.dropWhile p = [] := by
  intro l h
  induction l with
  | nil => rfl
  | cons c cs ih =>
      rw [List.dropWhile_cons, h c (by simp)]
      simp [ih (fun x hx => h x (by simp [hx]))]

theorem takeWhile_append_stop {p : Char → Bool} (l r : List Char) (c : Char)
    (hl : ∀ x ∈ l, p x = true) (hc : p c = false) :
    (l ++ c :: r).takeWhile p = l := by
  induction l with
  | nil => simp [List.takeWhile_cons, hc]
  | cons x xs ih =>
      rw [List.cons_append, List.takeWhile_cons, hl x (by simp)]
      simp [ih (fun y hy => hl y (by simp [hy]))]

theorem dropWhile_append_stop {p : Char → Bool} (l r : List Char) (c : Char)
    (hl : ∀ x ∈ l, p x = true) (hc : p c = false) :
    (l ++ c :: r).dropWhile p = c :: r := by
  induction l with
  | nil => simp [List.dropWhile_cons, hc]
  | cons x xs ih =>
      rw [List.cons_append, List.dropWhile_cons, hl x (by simp)]
      simp only [if_pos rfl]
      exact ih (fun y hy => hl y (by simp [hy]))

theorem dropWhile_cons_of_false {p : Char → Bool} (c : Char) (l : List Char)
    (hc : p c = false) : (c :: l).dropWhile p = c :: l := by
  simp [List.dropWhile_cons, hc]

theorem splitSign_of_digit (c : Char) (l : List Char)
    (h : c.isDigit = true) : splitSign (c :: l) = (1, c :: l) := by
  have h1 : c ≠ '-' := ne_of_isDigit h (by decide)
  have h2 : c ≠ '+' := ne_of_isDigit h (by decide)
  simp [splitSign, h1, h2]

/-! ### `stoi` applied to printed integers -/

theorem stoi_all_digits (l : List Char) (hne : l ≠ [])
    (hd : ∀ c ∈ l, c.isDigit = true)
    (hb : (digitsToNat l : Int) ≤ 2 ^ 31 - 1) :
    stoi l = some ((digitsToNat l : Nat) : Int) := by
  obtain ⟨c, cs, rfl⟩ := List.exists_cons_of_ne_nil hne
  have hc : c.isDigit = true := hd c (by simp)
  simp only [stoi]
  rw [dropWhile_cons_of_false c cs (isSpaceC_eq_false_of_isDigit hc)]
  rw [splitSign_of_digit c cs hc]
  simp only
  rw [digits_takeWhile (c :: cs) hd]
  rw [if_neg (by simp)]
  rw [if_neg (by push_cast; omega)]
  simp

theorem stoi_natChars (n : Nat) (hb : (n : Int) ≤ 2 ^ 31 - 1) :
    stoi (natChars n) = some ((n : Nat) : Int) := by
  rw [stoi_all_digits (natChars n) (natChars_ne_nil n) (natChars_all_digits n)
      (by rw [digitsToNat_natChars]; exact hb)]
  rw [digitsToNat_natChars]

theorem stoi_intChars (i : Int) (h1 : -(2 ^ 31) ≤ i) (h2 : i ≤ 2 ^ 31 - 1) :
    stoi (intChars i) = some i := by
  unfold intChars
  by_cases hneg : i < 0
  · rw [if_pos hneg]
    simp only [stoi]
    rw [dropWhile_cons_of_false '-' (natChars i.natAbs) (by decide)]
    have hsp : splitSign ('-' :: natChars i.natAbs) = (-1, natChars i.natAbs) := by
      simp [splitSign]
    rw [hsp]
    simp only
    rw [digits_takeWhile (natChars i.natAbs) (natChars_all_digits _)]
    rw [if_neg (by simp [natChars_ne_nil i.natAbs])]
    rw [digitsToNat_natChars]
    have habs : ((i.natAbs : Nat) : Int) = -i :=
      Int.ofNat_natAbs_of_nonpos (by omega)
    rw [habs]
    rw [if_neg (by omega)]
    congr 1
    ring
  · rw [if_neg hneg]
    have habs : ((i.natAbs : Nat) : Int) = i := Int.natAbs_of_nonneg (by omega)
    rw [stoi_natChars i.natAbs (by rw [habs]; omega)]
    rw [habs]

/-! ### `stod` applied to `%f`-printed rationals -/

theorem digitsToNat_replicate_zero (k : Nat) (l : List Char) :
    digitsToNat (List.replicate k '0' ++ l) = digitsToNat l := by
  induction k with
  | zero => rfl
  | succ k ih =>
      rw [List.replicate_succ, List.cons_append]
      simpa [digitsToNat, digitVal] using ih

theorem micro_exact (q : ℚ) (h : q.den ∣ 1000000) :
    micro q = ((1000000 / q.den : Nat) : Int) * q.num := by
  obtain ⟨e, he⟩ := h
  have hD : 0 < (q.den : Int) := by exact_mod_cast q.den_pos
  have hdivisor : (1000000 / q.den : Nat) = e := by
    rw [he, Nat.mul_div_cancel_left e q.den_pos]
  have he' : (1000000 : Int) = (q.den : Int) * (e : Int) := by exact_mod_cast he
  unfold micro
  rw [Int.fdiv_eq_ediv _ (by positivity)]
  have hnum : 2 * (1000000 * q.num) + (q.den : Int) =
      (q.den : Int) * (1 + 2 * ((e : Int) * q.num)) := by rw [he']; ring
  have hden : 2 * (q.den : Int) = (q.den : Int) * 2 := by ring
  rw [hnum, hden, Int.mul_ediv_mul_of_pos _ _ hD,
    Int.add_mul_ediv_left _ _ (by omega : (2:Int) ≠ 0)]
  rw [hdivisor]
  simp [Int.mul_comm]

theorem pad6_length (M : Nat) :
    (List.replicate (6 - (natChars (M % 1000000)).length) '0' ++
      natChars (M % 1000000)).length = 6 := by
  have hlt : M % 1000000 < 10 ^ 6 := by
    have := Nat.mod_lt M (by omega : (0:Nat) < 1000000)
    norm_num
    omega
  have := natChars_length (M % 1000000) 6 hlt (by omega)
  simp
  omega

theorem stod_fixed6Nat (M : Nat) :
    stod (fixed6Nat M) = some (mkRat (M : Int) 1000000) := by
  have hA := natChars_all_digits (M / 1000000)
  have hAne := natChars_ne_nil (M / 1000000)
  obtain ⟨c, cs, hcons⟩ := List.exists_cons_of_ne_nil hAne
  have hc : c.isDigit = true := hA c (by rw [hcons]; simp)
  have hpad : ∀ x ∈ List.replicate (6 - (natChars (M % 1000000)).length) '0' ++
      natChars (M % 1000000), x.isDigit = true := by
    intro x hx
    rcases List.mem_append.mp hx with hx | hx
    · rw [List.eq_of_mem_replicate hx]; decide
    · exact natChars_all_digits _ x hx
  unfold fixed6Nat
  simp only [stod]
  rw [show (natChars (M / 1000000) ++
        '.' :: (List.replicate (6 - (natChars (M % 1000000)).length) '0' ++
          natChars (M % 1000000))).dropWhile isSpaceC =
      natChars (M / 1000000) ++
        '.' :: (List.replicate (6 - (natChars (M % 1000000)).length) '0' ++
          natChars (M % 1000000)) from by
    rw [hcons, List.cons_append]
    exact dropWhile_cons_of_false c _ (isSpaceC_eq_false_of_isDigit hc)]
  rw [show splitSign (natChars (M / 1000000) ++
        '.' :: (List.replicate (6 - (natChars (M % 1000000)).length) '0' ++
          natChars (M % 1000000))) =
      (1, natChars (M / 1000000) ++
        '.' :: (List.replicate (6 - (natChars (M % 1000000)).length) '0' ++
          natChars (M % 1000000))) from by
    rw [hcons, List.cons_append]
    exact splitSign_of_digit c _ hc]
  simp only
  rw [takeWhile_append_stop _ _ '.' hA (by decide)]
  rw [dropWhile_append_stop _ _ '.' hA (by decide)]
  simp only
  rw [digits_takeWhile _ hpad]
  rw [if_neg (by simp [natChars_ne_nil])]
  rw [digitsToNat_natChars, digitsToNat_replicate_zero, digitsToNat_natChars,
    pad6_length]
  congr 1
  congr 1
  push_cast
  have := Nat.div_add_mod M 1000000
  omega

theorem stod_neg_fixed6Nat (M : Nat) :
    stod ('-' :: fixed6Nat M) = some (mkRat (-(M : Int)) 1000000) := by
  have hA := natChars_all_digits (M / 1000000)
  have hpad : ∀ x ∈ List.replicate (6 - (natChars (M % 1000000)).length) '0' ++
      natChars (M % 1000000), x.isDigit = true := by
    intro x hx
    rcases List.mem_append.mp hx with hx | hx
    · rw [List.eq_of_mem_replicate hx]; decide
    · exact natChars_all_digits _ x hx
  simp only [stod]
  rw [dropWhile_cons_of_false '-' _ (by decide)]
  rw [show splitSign ('-' :: fixed6Nat M) = (-1, fixed6Nat M) from by
    simp [splitSign]]
  simp only
  unfold fixed6Nat
  rw [takeWhile_append_stop _ _ '.' hA (by decide)]
  rw [dropWhile_append_stop _ _ '.' hA (by decide)]
  simp only
  rw [digits_takeWhile _ hpad]
  rw [if_neg (by simp [natChars_ne_nil])]
  rw [digitsToNat_natChars, digitsToNat_replicate_zero, digitsToNat_natChars,
    pad6_length]
  congr 1
  congr 1
  push_cast
  have := Nat.div_add_mod M 1000000
  omega

theorem stod_fixed6Chars (q : ℚ) (h : q.den ∣ 1000000) :
    stod (fixed6Chars q) = some q := by
  have hD : 0 < (q.den : Int) := by exact_mod_cast q.den_pos
  obtain ⟨e, he⟩ := h
  have hdvd : q.den ∣ 1000000 := ⟨e, he⟩
  have he' : (1000000 : Int) = (q.den : Int) * (e : Int) := by exact_mod_cast he
  have hepos : 0 < (e : Int) := by
    rcases Nat.eq_zero_or_pos e with h0 | h0
    · subst h0; simp at he
    · exact_mod_cast h0
  have hmicro : micro q = ((1000000 / q.den : Nat) : Int) * q.num :=
    micro_exact q hdvd
  have hdiv : ((1000000 / q.den : Nat) : Int) = (e : Int) := by
    have : (1000000 / q.den : Nat) = e := by
      rw [he, Nat.mul_div_cancel_left e q.den_pos]
    exact_mod_cast this
  have hden0 : ((q.den : ℚ)) ≠ 0 := Nat.cast_ne_zero.mpr q.den_pos.ne'
  have he0 : ((e : ℚ)) ≠ 0 := by exact_mod_cast hepos.ne'
  have hnum_eq : (q.num : ℚ) = q * (q.den : ℚ) :=
    (div_eq_iff hden0).mp (Rat.num_div_den q)
  have heQ : (1000000 : ℚ) = (q.den : ℚ) * (e : ℚ) := by exact_mod_cast he
  unfold fixed6Chars
  by_cases hq : q < 0
  · rw [if_pos hq]
    have hnum : q.num < 0 := Rat.num_neg.mpr hq
    have hmn : micro (-q) = (e : Int) * (-q.num) := by
      rw [micro_exact (-q) (by rw [Rat.neg_den]; exact hdvd), Rat.neg_den,
        Rat.neg_num, hdiv]
    have hpos : 0 ≤ (e : Int) * (-q.num) :=
      mul_nonneg (le_of_lt hepos) (by omega)
    rw [hmn]
    have htn : (((e : Int) * (-q.num)).toNat : Int) = (e : Int) * (-q.num) :=
      Int.toNat_of_nonneg hpos
    rw [stod_neg_fixed6Nat]
    congr 1
    rw [htn]
    rw [Rat.mkRat_eq_div]
    push_cast
    rw [heQ, div_eq_iff (mul_ne_zero hden0 he0), hnum_eq]
    ring
  · rw [if_neg hq]
    have hnum : 0 ≤ q.num := Rat.num_nonneg.mpr (not_lt.mp hq)
    have hmq : micro q = (e : Int) * q.num := by rw [hmicro, hdiv]
    have hpos : 0 ≤ (e : Int) * q.num :=
      mul_nonneg (le_of_lt hepos) hnum
    rw [hmq]
    have htn : (((e : Int) * q.num).toNat : Int) = (e : Int) * q.num :=
      Int.toNat_of_nonneg hpos
    rw [stod_fixed6Nat]
    congr 1
    rw [htn]
    rw [Rat.mkRat_eq_div]
    push_cast
    rw [heQ, div_eq_iff (mul_ne_zero hden0 he0), hnum_eq]
    ring

/-! ### Locating commas and cutting fields -/

theorem findIdxC_append_cons (c : Char) (l tail : List Char) (h : c ∉ l) :
    findIdxC c (l ++ c :: tail) = some l.length := by
  induction l with
  | nil => simp [findIdxC]
  | cons x xs ih =>
      have hx : x ≠ c := by intro heq; exact h (by simp [heq])
      rw [List.cons_append, findIdxC, if_neg hx,
        ih (fun hmem => h (by simp [hmem]))]
      rfl

theorem findChar_at (pre l tail : List Char) (c : Char) (h : c ∉ l) :
    findChar (pre ++ (l ++ c :: tail)) c pre.length = pre.length + l.length := by
  unfold findChar
  rw [List.drop_left, findIdxC_append_cons c l tail h]

theorem substr_at (pre l tail : List Char) :
    substr (pre ++ (l ++ tail)) pre.length l.length = some l := by
  unfold substr
  rw [if_pos (by simp)]
  rw [List.drop_left, List.take_left]

theorem add64_small (a b : Nat) (h : a + b < 2 ^ 64) : add64 a b = a + b :=
  Nat.mod_eq_of_lt h

theorem sub64_small (a b : Nat) (hb : b ≤ a) (ha : a < 2 ^ 64) :
    sub64 a b = a - b := by
  unfold sub64
  have hb2 : b % 2 ^ 64 = b := Nat.mod_eq_of_lt (by omega)
  rw [hb2]
  have h1 : a + 2 ^ 64 - b = a - b + 2 ^ 64 := by omega
  rw [h1, Nat.add_mod_right, Nat.mod_eq_of_lt (by omega)]

/-! ### Splitting and joining the course list -/

theorem splitSemiAux_no_semi (cur l : List Char) (h : ';' ∉ l)
    (hne : cur ++ l ≠ []) : splitSemiAux cur l = [cur ++ l] := by
  induction l generalizing cur with
  | nil =>
      rw [splitSemiAux, if_neg (by simpa using hne)]
      simp
  | cons c cs ih =>
      have hc : c ≠ ';' := fun heq => h (by simp [heq])
      rw [splitSemiAux, if_neg hc]
      rw [ih (cur ++ [c]) (fun hmem => h (by simp [hmem])) (by simp)]
      simp

theorem splitSemiAux_semi (cur l rest : List Char) (h : ';' ∉ l) :
    splitSemiAux cur (l ++ ';' :: rest) = (cur ++ l) :: splitSemiAux [] rest := by
  induction l generalizing cur with
  | nil => simp [splitSemiAux]
  | cons c cs ih =>
      have hc : c ≠ ';' := fun heq => h (by simp [heq])
      rw [List.cons_append, splitSemiAux, if_neg hc]
      rw [ih (cur ++ [c]) (fun hmem => h (by simp [hmem]))]
      simp

theorem joinSemi_single (p : List Char) : joinSemi [p] = p := rfl

theorem joinSemi_cons_cons (p p2 : List Char) (rest : List (List Char)) :
    joinSemi (p :: p2 :: rest) = p ++ ';' :: joinSemi (p2 :: rest) := rfl

theorem parseCourses_joinSemi (parts : List (List Char))
    (hne : ∀ p ∈ parts, p ≠ [])
    (hsemi : ∀ p ∈ parts, ';' ∉ p) :
    parseCourses (joinSemi parts) = parts := by
  induction parts with
  | nil => rfl
  | cons p rest ih =>
      cases rest with
      | nil =>
          show splitSemiAux [] (joinSemi [p]) = [p]
          rw [joinSemi_single]
          rw [splitSemiAux_no_semi [] p (hsemi p (by simp))
            (by simpa using hne p (by simp))]
          simp
      | cons p2 rest2 =>
          show splitSemiAux [] (joinSemi (p :: p2 :: rest2)) = p :: p2 :: rest2
          rw [joinSemi_cons_cons]
          rw [splitSemiAux_semi [] p (joinSemi (p2 :: rest2))
            (hsemi p (by simp))]
          simp only [List.nil_append]
          have := ih (fun x hx => hne x (by simp [hx]))
            (fun x hx => hsemi x (by simp [hx]))
          exact congrArg (fun l => p :: l) this

theorem mem_joinSemi (parts : List (List Char)) (c : Char)
    (hc : c ∈ joinSemi parts) : c = ';' ∨ ∃ p ∈ parts, c ∈ p := by
  induction parts with
  | nil => simp [joinSemi] at hc
  | cons p rest ih =>
      cases rest with
      | nil =>
          rw [joinSemi_single] at hc
          exact Or.inr ⟨p, by simp, hc⟩
      | cons p2 rest2 =>
          rw [joinSemi_cons_cons] at hc
          rcases List.mem_append.mp hc with h1 | h1
          · exact Or.inr ⟨p, by simp, h1⟩
          · rcases List.mem_cons.mp h1 with h2 | h2
            · exact Or.inl h2
            · rcases ih h2 with h3 | ⟨x, hx1, hx2⟩
              · exact Or.inl h3
              · exact Or.inr ⟨x, by simp [hx1], hx2⟩

theorem joinSemi_ne_nil (parts : List (List Char)) (hp : parts ≠ [])
    (hne : ∀ p ∈ parts, p ≠ []) : joinSemi parts ≠ [] := by
  cases parts with
  | nil => exact absurd rfl hp
  | cons p rest =>
      cases rest with
      | nil => rw [joinSemi_single]; exact hne p (by simp)
      | cons p2 rest2 =>
          rw [joinSemi_cons_cons]
          intro hcontra
          rcases List.append_eq_nil.mp hcontra with ⟨h1, h2⟩
          simp at h2

theorem joinSemi_eq_intercalate (parts : List (List Char)) :
    joinSemi parts = List.intercalate [';'] parts := by
  induction parts with
  | nil => rfl
  | cons p rest ih =>
      cases rest with
      | nil => simp [joinSemi_single, List.intercalate]
      | cons p2 rest2 =>
          rw [joinSemi_cons_cons, ih]
          show _ = (List.intersperse [';'] (p :: p2 :: rest2)).flatten
          rw [List.intersperse_cons_cons]
          simp [List.intercalate]

/-! ### Characters of printed numbers are not delimiters -/

theorem comma_not_mem_natChars (n : Nat) : ',' ∉ natChars n := by
  intro h
  exact absurd (natChars_all_digits n ',' h) (by decide)

theorem comma_not_mem_intChars (i : Int) : ',' ∉ intChars i := by
  unfold intChars
  by_cases h : i < 0
  · rw [if_pos h]
    intro hmem
    rcases List.mem_cons.mp hmem with h1 | h1
    · exact absurd h1 (by decide)
    · exact comma_not_mem_natChars _ h1
  · rw [if_neg h]
    exact comma_not_mem_natChars _

theorem comma_not_mem_fixed6Nat (M : Nat) : ',' ∉ fixed6Nat M := by
  unfold fixed6Nat
  intro hmem
  rcases List.mem_append.mp hmem with h1 | h1
  · exact comma_not_mem_natChars _ h1
  · rcases List.mem_cons.mp h1 with h2 | h2
    · exact absurd h2 (by decide)
    · rcases List.mem_append.mp h2 with h3 | h3
      · exact absurd (List.eq_of_mem_replicate h3) (by decide)
      · exact comma_not_mem_natChars _ h3

theorem comma_not_mem_fixed6Chars (q : ℚ) : ',' ∉ fixed6Chars q := by
  unfold fixed6Chars
  by_cases h : q < 0
  · rw [if_pos h]
    intro hmem
    rcases List.mem_cons.mp hmem with h1 | h1
    · exact absurd h1 (by decide)
    · exact comma_not_mem_fixed6Nat _ h1
  · rw [if_neg h]
    exact comma_not_mem_fixed6Nat _

/-! ### Round trip: deserializing a serialized record -/

theorem data_mk (l : List Char) : (String.mk l).data = l := rfl

theorem findChar_eq (big pre l tail : List Char) (c : Char)
    (hbig : big = pre ++ (l ++ c :: tail)) (h : c ∉ l) (s res : Nat)
    (hs : s = pre.length) (hres : res = pre.length + l.length) :
    findChar big c s = res := by
  subst hbig hs hres
  exact findChar_at pre l tail c h

theorem substr_eq (big pre l tail : List Char)
    (hbig : big = pre ++ (l ++ tail)) (s cnt : Nat)
    (hs : s = pre.length) (hcnt : cnt = l.length) :
    substr big s cnt = some l := by
  subst hbig hs hcnt
  exact substr_at pre l tail

theorem drop_eq (big pre l : List Char) (hbig : big = pre ++ l) (s : Nat)
    (hs : s = pre.length) : big.drop s = l := by
  subst hbig hs
  exact List.drop_left pre l

theorem fromFileString_fields (A B C D E : List Char) (idv agev : Int)
    (gpav : ℚ)
    (hAc : ',' ∉ A) (hBc : ',' ∉ B) (hCc : ',' ∉ C) (hDc : ',' ∉ D)
    (hEc : ',' ∉ E)
    (hstoiA : stoi A = some idv) (hstoiC : stoi C = some agev)
    (hstodD : stod D = some gpav)
    (hlen : (A ++ ',' :: (B ++ ',' :: (C ++ ',' :: (D ++ ',' :: E)))).length
      < 2 ^ 64) :
    Student.fromFileString ⟨A ++ ',' :: (B ++ ',' :: (C ++ ',' :: (D ++ ',' :: E)))⟩ =
      some { id := idv, name := ⟨B⟩, age := agev, gpa := gpav,
             courses := if E = [] then []
               else (parseCourses E).map (fun c => String.mk c) } := by
  have hbound : A.length + B.length + C.length + D.length + E.length + 4 < 2 ^ 64 := by
    simp at hlen
    omega
  have hnpos : npos = 2 ^ 64 - 1 := rfl
  simp only [Student.fromFileString, data_mk]
  rw [findChar_eq (A ++ ',' :: (B ++ ',' :: (C ++ ',' :: (D ++ ',' :: E))))
    [] A (B ++ ',' :: (C ++ ',' :: (D ++ ',' :: E))) ',' (by simp) hAc
    0 A.length (by simp) (by simp)]
  rw [show add64 A.length 1 = A.length + 1 from add64_small _ _ (by omega)]
  rw [findChar_eq (A ++ ',' :: (B ++ ',' :: (C ++ ',' :: (D ++ ',' :: E))))
    (A ++ [',']) B (C ++ ',' :: (D ++ ',' :: E)) ',' (by simp) hBc
    (A.length + 1) (A.length + 1 + B.length) (by simp) (by simp; try omega)]
  rw [show add64 (A.length + 1 + B.length) 1 = A.length + 1 + B.length + 1 from
    add64_small _ _ (by omega)]
  rw [findChar_eq (A ++ ',' :: (B ++ ',' :: (C ++ ',' :: (D ++ ',' :: E))))
    (A ++ ',' :: (B ++ [','])) C (D ++ ',' :: E) ',' (by simp) hCc
    (A.length + 1 + B.length + 1) (A.length + 1 + B.length + 1 + C.length)
    (by simp; try omega) (by simp; try omega)]
  rw [show add64 (A.length + 1 + B.length + 1 + C.length) 1 =
      A.length + 1 + B.length + 1 + C.length + 1 from add64_small _ _ (by omega)]
  rw [findChar_eq (A ++ ',' :: (B ++ ',' :: (C ++ ',' :: (D ++ ',' :: E))))
    (A ++ ',' :: (B ++ ',' :: (C ++ [',']))) D E ',' (by simp) hDc
    (A.length + 1 + B.length + 1 + C.length + 1)
    (A.length + 1 + B.length + 1 + C.length + 1 + D.length)
    (by simp; try omega) (by simp; try omega)]
  rw [show add64 (A.length + 1 + B.length + 1 + C.length + 1 + D.length) 1 =
      A.length + 1 + B.length + 1 + C.length + 1 + D.length + 1 from
    add64_small _ _ (by omega)]
  rw [show sub64 (A.length + 1 + B.length) A.length = B.length + 1 from by
    rw [sub64_small _ _ (by omega) (by omega)]; omega]
  rw [show sub64 (B.length + 1) 1 = B.length from by
    rw [sub64_small _ _ (by omega) (by omega)]; omega]
  rw [show sub64 (A.length + 1 + B.length + 1 + C.length) (A.length + 1 + B.length) =
      C.length + 1 from by rw [sub64_small _ _ (by omega) (by omega)]; omega]
  rw [show sub64 (C.length + 1) 1 = C.length from by
    rw [sub64_small _ _ (by omega) (by omega)]; omega]
  rw [show sub64 (A.length + 1 + B.length + 1 + C.length + 1 + D.length)
      (A.length + 1 + B.length + 1 + C.length) = D.length + 1 from by
    rw [sub64_small _ _ (by omega) (by omega)]; omega]
  rw [show sub64 (D.length + 1) 1 = D.length from by
    rw [sub64_small _ _ (by omega) (by omega)]; omega]
  rw [substr_eq (A ++ ',' :: (B ++ ',' :: (C ++ ',' :: (D ++ ',' :: E))))
    [] A (',' :: (B ++ ',' :: (C ++ ',' :: (D ++ ',' :: E)))) (by simp)
    0 A.length (by simp) rfl]
  simp only [Option.bind_eq_bind, Option.some_bind]
  rw [hstoiA]
  simp only [Option.some_bind]
  rw [substr_eq (A ++ ',' :: (B ++ ',' :: (C ++ ',' :: (D ++ ',' :: E))))
    (A ++ [',']) B (',' :: (C ++ ',' :: (D ++ ',' :: E))) (by simp)
    (A.length + 1) B.length (by simp) rfl]
  simp only [Option.some_bind]
  rw [substr_eq (A ++ ',' :: (B ++ ',' :: (C ++ ',' :: (D ++ ',' :: E))))
    (A ++ ',' :: (B ++ [','])) C (',' :: (D ++ ',' :: E)) (by simp)
    (A.length + 1 + B.length + 1) C.length (by simp; try omega) rfl]
  simp only [Option.some_bind]
  rw [hstoiC]
  simp only [Option.some_bind]
  rw [substr_eq (A ++ ',' :: (B ++ ',' :: (C ++ ',' :: (D ++ ',' :: E))))
    (A ++ ',' :: (B ++ ',' :: (C ++ [',']))) D (',' :: E) (by simp)
    (A.length + 1 + B.length + 1 + C.length + 1) D.length (by simp; try omega) rfl]
  simp only [Option.some_bind]
  rw [hstodD]
  simp only [Option.some_bind]
  have hn : (A ++ ',' :: (B ++ ',' :: (C ++ ',' :: (D ++ ',' :: E)))).length =
      A.length + 1 + B.length + 1 + C.length + 1 + D.length + 1 + E.length := by
    simp
    omega
  rw [hn]
  by_cases hEnil : E = []
  · subst hEnil
    rw [if_neg (by simp)]
    rw [if_pos rfl]
    rfl
  · rw [if_pos ⟨by omega,
      by have := List.length_pos.mpr hEnil; omega⟩]
    rw [drop_eq (A ++ ',' :: (B ++ ',' :: (C ++ ',' :: (D ++ ',' :: E))))
      (A ++ ',' :: (B ++ ',' :: (C ++ ',' :: (D ++ [','])))) E (by simp)
      (A.length + 1 + B.length + 1 + C.length + 1 + D.length + 1) (by simp; try omega)]
    rw [if_neg hEnil]
    rfl

theorem mk_data (s : String) : String.mk s.data = s := rfl

theorem map_mk_data (cs : List String) :
    (cs.map String.data).map (fun l => String.mk l) = cs := by
  induction cs with
  | nil => rfl
  | cons s rest ih => simp [ih, mk_data]

theorem data_ne_nil (s : String) (h : s ≠ "") : s.data ≠ [] := by
  intro hd
  apply h
  have h1 : s = String.mk s.data := rfl
  rw [h1, hd]

/-- C1 (amended): the serialize-then-deserialize round trip
`fromFileString (toFileString r) = r`, under the side conditions that
actually make it hold on the code: the claim's own proviso that the name
and the course names contain neither ',' nor ';', the machine-type bounds
that C++ guarantees for free (`int` ids and ages, a line shorter than
`2^64` characters), and the two conditions the counterexample forces:
every course name is nonempty, and the gpa is exactly representable with
6 decimal digits. -/
theorem Student.fromFileString_toFileString (r : Student)
    (hid1 : -(2 ^ 31) ≤ r.id) (hid2 : r.id ≤ 2 ^ 31 - 1)
    (hage1 : -(2 ^ 31) ≤ r.age) (hage2 : r.age ≤ 2 ^ 31 - 1)
    (hname : ∀ c ∈ r.name.data, c ≠ ',' ∧ c ≠ ';')
    (hcourses : ∀ s ∈ r.courses, s ≠ "" ∧ ∀ c ∈ s.data, c ≠ ',' ∧ c ≠ ';')
    (hgpa : r.gpa.den ∣ 1000000)
    (hlen : (Student.toFileString r).data.length < 2 ^ 64) :
    Student.fromFileString (Student.toFileString r) = some r := by
  have hmk : Student.toFileString r =
      ⟨intChars r.id ++ ',' :: (r.name.data ++ ',' :: (intChars r.age ++
        ',' :: (fixed6Chars r.gpa ++
          ',' :: joinSemi (r.courses.map String.data))))⟩ := by
    simp [Student.toFileString]
  rw [hmk] at hlen ⊢
  rw [data_mk] at hlen
  have hBc : ',' ∉ r.name.data := fun hmem => (hname ',' hmem).1 rfl
  have hEc : ',' ∉ joinSemi (r.courses.map String.data) := by
    intro hmem
    rcases mem_joinSemi _ ',' hmem with h1 | ⟨p, hp, hcp⟩
    · exact absurd h1 (by decide)
    · rcases List.mem_map.mp hp with ⟨s, hs, rfl⟩
      exact ((hcourses s hs).2 ',' hcp).1 rfl
  rw [fromFileString_fields (intChars r.id) r.name.data (intChars r.age)
    (fixed6Chars r.gpa) (joinSemi (r.courses.map String.data))
    r.id r.age r.gpa
    (comma_not_mem_intChars r.id) hBc (comma_not_mem_intChars r.age)
    (comma_not_mem_fixed6Chars r.gpa) hEc
    (stoi_intChars r.id hid1 hid2) (stoi_intChars r.age hage1 hage2)
    (stod_fixed6Chars r.gpa hgpa) hlen]
  have hcFix : (if joinSemi (r.courses.map String.data) = [] then []
      else (parseCourses (joinSemi (r.courses.map String.data))).map
        (fun c => String.mk c)) = r.courses := by
    by_cases hnil : r.courses = []
    · rw [hnil]
      rfl
    · have hne2 : r.courses.map String.data ≠ [] := by simpa using hnil
      have hplists : ∀ p ∈ r.courses.map String.data, p ≠ [] := by
        intro p hp
        rcases List.mem_map.mp hp with ⟨s, hs, rfl⟩
        exact data_ne_nil s (hcourses s hs).1
      have hsemi2 : ∀ p ∈ r.courses.map String.data, ';' ∉ p := by
        intro p hp hmem
        rcases List.mem_map.mp hp with ⟨s, hs, rfl⟩
        exact ((hcourses s hs).2 ';' hmem).2 rfl
      rw [if_neg (joinSemi_ne_nil _ hne2 hplists)]
      rw [parseCourses_joinSemi _ hplists hsemi2]
      exact map_mk_data r.courses
  rw [hcFix]


/-! ### Claim theorems -/

/-- C2: the claim says a malformed line (fewer than 4 comma-separated
fields) must fail with a ParseError. The code does not: on the 3-field
line `1,Alice,20` the `size_t` wrap-around of `npos + 1` makes the fourth
`find` wrap to the beginning, and `fromFileString` silently builds a
garbage record (gpa re-read from the id field, the tail swallowed as a
course name) instead of failing. This theorem evaluates the code at that
failing input. -/
theorem c2_failing_input :
    Student.fromFileString "1,Alice,20" =
      some { id := 1, name := "Alice", age := 20, gpa := 1,
             courses := ["Alice,20"] } := by
  decide

/-- C3 counterexample: with an empty course list the serializer still
emits the trailing comma after the gpa field, contradicting the claim
that the trailing course field is omitted entirely. -/
theorem c3_counterexample :
    Student.toFileString
        { id := 1, name := "Alice", age := 20, gpa := mkRat 7 2,
          courses := [] } = "1,Alice,20,3.500000," ∧
      "1,Alice,20,3.500000," ≠ "1,Alice,20,3.500000" := by
  constructor
  · decide
  · decide

/-- C3 (amended): `toFileString` always produces
`id,name,age,gpa,course1;course2;...` with the four scalar fields joined
by commas and courses joined by semicolons; the fifth field is present
even when the course list is empty, in which case the line ends with a
trailing comma. -/
theorem c3_serialization_format (r : Student) :
    (Student.toFileString r).data =
      intChars r.id ++ ',' :: r.name.data ++ ',' :: intChars r.age ++
        ',' :: fixed6Chars r.gpa ++
        ',' :: List.intercalate [';'] (r.courses.map String.data) ∧
    (r.courses = [] →
      (Student.toFileString r).data.getLast? = some ',') := by
  constructor
  · show (intChars r.id ++ ',' :: r.name.data ++ ',' :: intChars r.age ++
        ',' :: fixed6Chars r.gpa ++
        ',' :: joinSemi (r.courses.map String.data)) = _
    rw [joinSemi_eq_intercalate]
  · intro hc
    have : (Student.toFileString r).data =
        (intChars r.id ++ ',' :: r.name.data ++ ',' :: intChars r.age ++
          ',' :: fixed6Chars r.gpa) ++ [','] := by
      show (intChars r.id ++ ',' :: r.name.data ++ ',' :: intChars r.age ++
        ',' :: fixed6Chars r.gpa ++
        ',' :: joinSemi (r.courses.map String.data)) = _
      rw [hc]
      show intChars r.id ++ ',' :: r.name.data ++ ',' :: intChars r.age ++
        ',' :: fixed6Chars r.gpa ++ [','] = _
      simp
    rw [this]
    exact List.getLast?_concat _

/-- C3 witness: the format theorem applied to a concrete record with no
courses; its line ends with the comma. -/
theorem c3_witness :
    (Student.toFileString
      { id := 1, name := "Alice", age := 20, gpa := mkRat 7 2,
        courses := [] }).data.getLast? = some ',' :=
  (c3_serialization_format
    { id := 1, name := "Alice", age := 20, gpa := mkRat 7 2,
      courses := [] }).2 rfl

/-- C1 counterexample: the claim as stated (round trip for every record
whose name and courses avoid ',' and ';') fails twice on the code. A
record with the empty string as a course name serializes to a line ending
in a comma, which deserializes back to an empty course list, and a gpa
that needs more than 6 decimal digits (here 1/3, a value a C++ double can
hold) is truncated by `to_string`'s fixed 6-decimal printing. -/
theorem c1_counterexample :
    (Student.fromFileString (Student.toFileString
        { id := 1, name := "Alice", age := 20, gpa := mkRat 7 2,
          courses := [""] }) =
      some { id := 1, name := "Alice", age := 20, gpa := mkRat 7 2,
             courses := [] } ∧
      ({ id := 1, name := "Alice", age := 20, gpa := mkRat 7 2,
         courses := [] } : Student) ≠
        { id := 1, name := "Alice", age := 20, gpa := mkRat 7 2,
          courses := [""] }) ∧
    (Student.fromFileString (Student.toFileString
        { id := 1, name := "Bob", age := 20, gpa := mkRat 1 3,
          courses := [] }) =
      some { id := 1, name := "Bob", age := 20, gpa := mkRat 333333 1000000,
             courses := [] } ∧
      (mkRat 333333 1000000 : ℚ) ≠ mkRat 1 3) := by
  refine ⟨⟨by decide, by decide⟩, ⟨by decide, by decide⟩⟩

/-- C1 witness: the round-trip theorem applied to a concrete record. -/
theorem c1_witness :
    Student.fromFileString (Student.toFileString
      { id := 7, name := "Alice", age := 20, gpa := mkRat 7 2,
        courses := ["Math", "CS"] }) =
      some { id := 7, name := "Alice", age := 20, gpa := mkRat 7 2,
             courses := ["Math", "CS"] } :=
  Student.fromFileString_toFileString
    { id := 7, name := "Alice", age := 20, gpa := mkRat 7 2,
      courses := ["Math", "CS"] }
    (by decide) (by decide) (by decide) (by decide) (by decide) (by decide)
    (by decide) (by decide)

/-- C4: creating a student with an id already in the roster is refused
and leaves the roster unchanged; a fresh id appends exactly one record at
the end; and the operation preserves distinctness of the ids. -/
theorem addStudent_spec (students : List Student) (s : Student) :
    ((∃ t ∈ students, t.id = s.id) → addStudent students s = (students, false)) ∧
    ((∀ t ∈ students, t.id ≠ s.id) →
      addStudent students s = (students ++ [s], true)) ∧
    ((students.map Student.id).Nodup →
      (((addStudent students s).1).map Student.id).Nodup) := by
  refine ⟨?_, ?_, ?_⟩
  · rintro ⟨t, ht, hid⟩
    have hsome : (findStudentById s.id students).isSome = true := by
      rcases hf : findStudentById s.id students with _ | t2
      · exfalso
        have := List.find?_eq_none.mp hf t ht
        simp at this
        exact this hid
      · rfl
    unfold addStudent
    rw [if_pos hsome]
  · intro h
    have hnone : findStudentById s.id students = none := by
      unfold findStudentById
      apply List.find?_eq_none.mpr
      intro x hx
      simp [h x hx]
    unfold addStudent
    rw [hnone]
    rfl
  · intro hnod
    by_cases hfind : (findStudentById s.id students).isSome
    · unfold addStudent
      rw [if_pos hfind]
      exact hnod
    · unfold addStudent
      rw [if_neg hfind]
      simp only [List.map_append]
      apply List.Nodup.append hnod (by simp)
      intro x hx1 hx2
      rcases List.mem_map.mp hx1 with ⟨t, ht, rfl⟩
      simp at hx2
      have hnone : findStudentById s.id students = none :=
        Option.not_isSome_iff_eq_none.mp hfind
      have h2 := List.find?_eq_none.mp hnone t ht
      simp at h2
      exact h2 hx2

/-- C4 witness: the specification applied to a concrete roster: the
duplicate id 1 is refused, the fresh id 2 is appended. -/
theorem addStudent_witness :
    addStudent [{ id := 1, name := "A", age := 20, gpa := 3, courses := [] }]
        { id := 2, name := "B", age := 21, gpa := 2, courses := [] } =
      ([{ id := 1, name := "A", age := 20, gpa := 3, courses := [] },
        { id := 2, name := "B", age := 21, gpa := 2, courses := [] }], true) ∧
    addStudent [{ id := 1, name := "A", age := 20, gpa := 3, courses := [] }]
        { id := 1, name := "B", age := 21, gpa := 2, courses := [] } =
      ([{ id := 1, name := "A", age := 20, gpa := 3, courses := [] }], false) :=
  ⟨(addStudent_spec _ _).2.1 (by decide),
   (addStudent_spec _ _).1
     ⟨{ id := 1, name := "A", age := 20, gpa := 3, courses := [] },
      by simp, rfl⟩⟩


/-- C5: removing by id deletes exactly the first record with that id and
keeps the rest in order; when no record matches, the roster is unchanged
and the not-found flag is reported. -/
theorem removeStudent_spec (id : Int) (roster : List Student) :
    ((∀ t ∈ roster, t.id ≠ id) → removeStudent id roster = (roster, false)) ∧
    (∀ l1 t l2, roster = l1 ++ t :: l2 → t.id = id → (∀ x ∈ l1, x.id ≠ id) →
      removeStudent id roster = (l1 ++ l2, true)) := by
  constructor
  · intro h
    induction roster with
    | nil => rfl
    | cons s rest ih =>
        rw [removeStudent, if_neg (h s (by simp))]
        rw [ih (fun t ht => h t (by simp [ht]))]
  · intro l1 t l2 hsplit ht hl1
    subst hsplit
    induction l1 with
    | nil => simp [removeStudent, ht]
    | cons x xs ih =>
        rw [List.cons_append, removeStudent, if_neg (hl1 x (by simp))]
        rw [ih (fun y hy => hl1 y (by simp [hy]))]
        rfl


/-- C5 witness: the specification applied to a concrete three-record
roster: id 2 in the middle is removed, an absent id leaves the roster
unchanged. -/
theorem removeStudent_witness :
    removeStudent 2
        [{ id := 1, name := "A", age := 20, gpa := 3, courses := [] },
         { id := 2, name := "B", age := 21, gpa := 2, courses := [] },
         { id := 3, name := "C", age := 22, gpa := 1, courses := [] }] =
      ([{ id := 1, name := "A", age := 20, gpa := 3, courses := [] },
        { id := 3, name := "C", age := 22, gpa := 1, courses := [] }], true) ∧
    removeStudent 9
        [{ id := 1, name := "A", age := 20, gpa := 3, courses := [] }] =
      ([{ id := 1, name := "A", age := 20, gpa := 3, courses := [] }], false) :=
  ⟨(removeStudent_spec 2 _).2
      [{ id := 1, name := "A", age := 20, gpa := 3, courses := [] }]
      { id := 2, name := "B", age := 21, gpa := 2, courses := [] }
      [{ id := 3, name := "C", age := 22, gpa := 1, courses := [] }]
      rfl rfl (by decide),
   (removeStudent_spec 9 _).1 (by decide)⟩

/-- C6: `setGpa` stores exactly the new value when it lies in `[0, 4]`
and otherwise leaves the whole record unchanged; no other field is ever
affected. -/
theorem setGpa_spec (s : Student) (v : ℚ) :
    ((0 ≤ v ∧ v ≤ 4) → Student.setGpa s v = { s with gpa := v }) ∧
    (¬(0 ≤ v ∧ v ≤ 4) → Student.setGpa s v = s) := by
  constructor
  · intro h
    rw [Student.setGpa, if_pos h]
  · intro h
    rw [Student.setGpa, if_neg h]

/-- C6 witness: the specification applied at an in-range value 3 and the
out-of-range value 5 on a concrete record. -/
theorem setGpa_witness :
    Student.setGpa { id := 1, name := "A", age := 20, gpa := 2, courses := [] } 3 =
      { id := 1, name := "A", age := 20, gpa := 3, courses := [] } ∧
    Student.setGpa { id := 1, name := "A", age := 20, gpa := 2, courses := [] } 5 =
      { id := 1, name := "A", age := 20, gpa := 2, courses := [] } :=
  ⟨(setGpa_spec _ 3).1 (by constructor <;> decide),
   (setGpa_spec _ 5).2 (by intro h; exact absurd h.2 (by decide))⟩

/-- C7: `removeCourse` removes every occurrence of the course (exact
match), keeps the remaining courses in their relative order (a sublist of
the original), touches nothing else, is a no-op when the course is
absent; and after adding "Math" twice to a record with no courses a
single removal leaves the course list empty. -/
theorem removeCourse_spec (s : Student) (course : String) :
    course ∉ (Student.removeCourse s course).courses ∧
    ((Student.removeCourse s course).courses).Sublist s.courses ∧
    (∀ c ∈ s.courses, c ≠ course → c ∈ (Student.removeCourse s course).courses) ∧
    (course ∉ s.courses → Student.removeCourse s course = s) ∧
    (s.courses = [] →
      (Student.removeCourse (Student.addCourse (Student.addCourse s "Math") "Math") "Math").courses
        = []) := by
  refine ⟨?_, ?_, ?_, ?_, ?_⟩
  · intro hmem
    rw [Student.removeCourse] at hmem
    simp at hmem
  · rw [Student.removeCourse]
    exact List.filter_sublist _
  · intro c hc hne
    rw [Student.removeCourse]
    simp [hc, hne]
  · intro h
    have hfix : s.courses.filter (fun c => c ≠ course) = s.courses := by
      apply List.filter_eq_self.mpr
      intro a ha
      simp
      exact fun heq => h (heq ▸ ha)
    rw [Student.removeCourse, hfix]
  · intro h
    rw [Student.removeCourse, Student.addCourse, Student.addCourse, h]
    rfl

/-- C7 witness: the specification applied to a record whose course list
is exactly ["Math", "Math"] via two adds; one removal empties it. -/
theorem removeCourse_witness :
    (Student.removeCourse (Student.addCourse (Student.addCourse
        { id := 1, name := "A", age := 20, gpa := 2, courses := [] }
        "Math") "Math") "Math").courses = [] :=
  (removeCourse_spec
    { id := 1, name := "A", age := 20, gpa := 2, courses := [] } "Math").2.2.2.2
    rfl

/-- C8: loading a missing file from the initial empty roster yields zero
records and no error, and loading an existing file deserializes exactly
the non-blank lines, one record per line, in file order (any exception
escaping the loop is propagated, which `mapM` over `Option` mirrors). -/
theorem loadFromFile_spec :
    loadFromFile none [] = some [] ∧
    ∀ (lines : List String) (prior : List Student),
      loadFromFile (some lines) prior =
        (lines.filter (fun l => !l.isEmpty)).mapM Student.fromFileString := by
  constructor
  · rfl
  · intro lines prior
    show loadLines lines = _
    induction lines with
    | nil => rfl
    | cons l rest ih =>
        by_cases hl : l.isEmpty
        · rw [loadLines, if_pos hl, ih, List.filter_cons, if_neg (by simp [hl])]
        · rw [loadLines, if_neg hl, List.filter_cons, if_pos (by simp [hl]),
            List.mapM_cons]
          rw [← ih]

/-- C9: searching by name with the empty string matches every record:
`string::find` of an empty pattern returns 0, never `npos`, so the filter
keeps the whole roster in order. -/
theorem searchStudentByName_empty (roster : List Student) :
    searchStudentByName "" roster = roster := by
  unfold searchStudentByName
  apply List.filter_eq_self.mpr
  intro s hs
  have hempty : ("" : String).data = [] := rfl
  rw [hempty]
  have h0 : strFind s.name.data [] = 0 := by
    unfold strFind
    rw [List.range_succ_eq_map, List.find?_cons_of_pos _ (by simp)]
  rw [h0]
  decide

/-- C10: an honor student (gpa at least 3.5) always lands in grade tier
"A" (gpa at least 3.7) or "B" (gpa at least 3.0), never "C", "D" or
"F". -/
theorem isHonorStudent_grade (s : Student) (h : Student.isHonorStudent s = true) :
    Student.getGradeLevel s = "A" ∨ Student.getGradeLevel s = "B" := by
  have hg : mkRat 35 10 ≤ s.gpa := by
    simpa [Student.isHonorStudent] using h
  unfold Student.getGradeLevel
  by_cases h37 : mkRat 37 10 ≤ s.gpa
  · left
    rw [if_pos h37]
  · right
    rw [if_neg h37, if_pos (le_trans (by decide : (mkRat 30 10 : ℚ) ≤ mkRat 35 10) hg)]

/-- C10 witness: a student with gpa 3.6 is an honor student and receives
grade "B". -/
theorem isHonorStudent_grade_witness :
    Student.getGradeLevel
      { id := 1, name := "A", age := 20, gpa := mkRat 36 10,
        courses := [] } = "A" ∨
    Student.getGradeLevel
      { id := 1, name := "A", age := 20, gpa := mkRat 36 10,
        courses := [] } = "B" :=
  isHonorStudent_grade
    { id := 1, name := "A", age := 20, gpa := mkRat 36 10, courses := [] }
    (by decide)

end StudentMgmt
